import Mathlib

/-!
Verification of the VGA text-buffer console driver (`src/vga_buffer.rs`).

The driver is shallowly embedded: the 16-color palette, the packed color
attribute byte, the 25x80 grid of screen characters, and the console writer
with its `write_byte` / `write_string` / `new_line` / `clear_row` operations
are translated into executable Lean definitions, and the specified
properties are proved about those definitions.

Machine bytes are modelled as `Nat` (values kept below 256 by the call
sites), and the memory-mapped frame buffer as a total function from
row/column coordinates to screen characters; each hardware cell write in
the Rust code becomes a pointwise function update, performed in the same
order as the source loops perform them.
-/

namespace VgaBuffer

/-- The 16 VGA colors, in the palette order of the `Color` enum in
`src/vga_buffer.rs` (`#[repr(u8)]`, discriminants 0 through 15). -/
inductive Color where
  | Black
  | Blue
  | Green
  | Cyan
  | Red
  | Magenta
  | Brown
  | LightGray
  | DarkGray
  | LightBlue
  | LightGreen
  | LightCyan
  | LightRed
  | Pink
  | Yellow
  | White
  deriving DecidableEq, Fintype, Repr

/-- The numeric discriminant of each color (`Color as u8` in the source). -/
def Color.code : Color → Nat
  | .Black => 0
  | .Blue => 1
  | .Green => 2
  | .Cyan => 3
  | .Red => 4
  | .Magenta => 5
  | .Brown => 6
  | .LightGray => 7
  | .DarkGray => 8
  | .LightBlue => 9
  | .LightGreen => 10
  | .LightCyan => 11
  | .LightRed => 12
  | .Pink => 13
  | .Yellow => 14
  | .White => 15

/-- `ColorCode::new`: pack background and foreground into one attribute
byte, `(background as u8) << 4 | (foreground as u8)`. -/
def ColorCode.new (foreground background : Color) : Nat :=
  (background.code <<< 4) ||| foreground.code

/-- `ScreenChar`: one display cell, an ASCII byte paired with a packed
color attribute byte. -/
structure ScreenChar where
  ascii_character : Nat
  color_code : Nat
  deriving DecidableEq, Repr

def BUFFER_HEIGHT : Nat := 25

def BUFFER_WIDTH : Nat := 80

/-- The frame buffer (`Buffer.chars`), modelled as a total function from
row and column to the cell stored there. -/
abbrev Buffer : Type := Nat → Nat → ScreenChar

/-- One volatile cell write: `self.buffer.chars[r][c].write(v)`. -/
def writeCell (b : Buffer) (r c : Nat) (v : ScreenChar) : Buffer :=
  fun r' c' => if r' = r ∧ c' = c then v else b r' c'

/-- `Writer`: the console writer state. -/
structure Writer where
  column_position : Nat
  color_code : Nat
  buffer : Buffer

/-- `Writer::clear_row`: overwrite every cell of `row` with a blank
(space in the current color), column by column. -/
def Writer.clear_row (w : Writer) (row : Nat) : Writer :=
  { w with
    buffer := (List.range BUFFER_WIDTH).foldl
      (fun b col => writeCell b row col ⟨0x20, w.color_code⟩) w.buffer }

/-- The inner loop of `Writer::new_line` for one value of `row`: for each
column, read the cell at `(row, col)` from the current buffer and write it
to `(row - 1, col)`. -/
def copyRowUp (b : Buffer) (row : Nat) : Buffer :=
  (List.range BUFFER_WIDTH).foldl
    (fun acc col => writeCell acc (row - 1) col (acc row col)) b

/-- `Writer::new_line`: for each row from 1 to `BUFFER_HEIGHT - 1` in
order, copy that row one row up; then clear the last row and reset the
column position to 0. -/
def Writer.new_line (w : Writer) : Writer :=
  let shifted : Writer :=
    { w with buffer := (List.range' 1 (BUFFER_HEIGHT - 1)).foldl copyRowUp w.buffer }
  let cleared := shifted.clear_row (BUFFER_HEIGHT - 1)
  { cleared with column_position := 0 }

/-- `Writer::write_byte`: a newline byte triggers `new_line`; any other
byte is written at `(BUFFER_HEIGHT - 1, column_position)` after an
implicit `new_line` when the line is full, and the column advances. -/
def Writer.write_byte (w : Writer) (byte : Nat) : Writer :=
  if byte = 0x0a then w.new_line
  else
    let w' := if BUFFER_WIDTH ≤ w.column_position then w.new_line else w
    { w' with
      buffer := writeCell w'.buffer (BUFFER_HEIGHT - 1) w'.column_position
        ⟨byte, w'.color_code⟩
      column_position := w'.column_position + 1 }

/-- `Writer::write_string`: process the input byte by byte; printable
ASCII (0x20 through 0x7e) and newline pass to `write_byte` unchanged,
every other byte is replaced by 0xfe. -/
def Writer.write_string (w : Writer) (s : List Nat) : Writer :=
  s.foldl
    (fun w byte =>
      if (0x20 ≤ byte ∧ byte ≤ 0x7e) ∨ byte = 0x0a then w.write_byte byte
      else w.write_byte 0xfe)
    w

/-- The `fmt::Write` adapter `write_str`: writes the string and returns
`Ok(())` (`fmt::Result` is modelled as `Except Unit Unit`). -/
def Writer.write_str (w : Writer) (s : List Nat) : Writer × Except Unit Unit :=
  (w.write_string s, Except.ok ())

/-- `Result::unwrap` on a `fmt::Result`: yields the value on `Ok`, and
`none` (a panic) on `Err`. -/
def unwrap : Except Unit Unit → Option Unit
  | Except.ok a => some a
  | Except.error _ => none

/-- The `WRITER` singleton initializer: column 0, yellow on black, bound
to the device memory at 0xb8000 (whose pre-existing contents `device` are
taken as given, not cleared). -/
def WRITER (device : Buffer) : Writer :=
  { column_position := 0
    color_code := ColorCode.new Color.Yellow Color.Black
    buffer := device }

/-- `_print`: lock the singleton, render through `write_str`, `unwrap`
the result. The writer state threaded through is returned. -/
def print_entry (w : Writer) (s : List Nat) : Writer :=
  (w.write_str s).1

/-! ### Characterization lemmas for the buffer operations -/

theorem writeCell_apply (b : Buffer) (r c : Nat) (v : ScreenChar) (r' c' : Nat) :
    writeCell b r c v r' c' = if r' = r ∧ c' = c then v else b r' c' := rfl

theorem clear_fold_apply (blank : ScreenChar) (row : Nat) :
    ∀ (n : Nat) (b : Buffer) (r' c' : Nat),
      (List.range n).foldl (fun b col => writeCell b row col blank) b r' c' =
        if r' = row ∧ c' < n then blank else b r' c' := by
  intro n
  induction n with
  | zero => intro b r' c'; simp
  | succ n ih =>
    intro b r' c'
    rw [List.range_succ, List.foldl_append]
    simp only [List.foldl_cons, List.foldl_nil, writeCell_apply, ih]
    by_cases h1 : r' = row
    · by_cases h2 : c' = n
      · simp [h1, h2]
      · by_cases h3 : c' < n
        · simp [h1, h2, h3, Nat.lt_succ_of_lt h3]
        · have h4 : ¬ c' < n + 1 := by omega
          simp [h1, h2, h3, h4]
    · simp [h1]

/-- Effect of `clear_row` on the buffer. -/
theorem clear_row_buffer (w : Writer) (row : Nat) (r' c' : Nat) :
    (w.clear_row row).buffer r' c' =
      if r' = row ∧ c' < BUFFER_WIDTH then ⟨0x20, w.color_code⟩
      else w.buffer r' c' :=
  clear_fold_apply ⟨0x20, w.color_code⟩ row BUFFER_WIDTH w.buffer r' c'

theorem clear_row_column_position (w : Writer) (row : Nat) :
    (w.clear_row row).column_position = w.column_position := rfl

theorem clear_row_color_code (w : Writer) (row : Nat) :
    (w.clear_row row).color_code = w.color_code := rfl

theorem copyRowUp_fold_apply (row : Nat) (hrow : 1 ≤ row) :
    ∀ (n : Nat) (b : Buffer) (r' c' : Nat),
      (List.range n).foldl
          (fun acc col => writeCell acc (row - 1) col (acc row col)) b r' c' =
        if r' = row - 1 ∧ c' < n then b row c' else b r' c' := by
  intro n
  induction n with
  | zero => intro b r' c'; simp
  | succ n ih =>
    intro b r' c'
    rw [List.range_succ, List.foldl_append]
    simp only [List.foldl_cons, List.foldl_nil, writeCell_apply, ih]
    have hrr : ¬ row = row - 1 := by omega
    by_cases h1 : r' = row - 1
    · by_cases h2 : c' = n
      · simp [h1, h2, hrr]
      · by_cases h3 : c' < n
        · simp [h1, h2, h3, Nat.lt_succ_of_lt h3]
        · have h4 : ¬ c' < n + 1 := by omega
          simp [h1, h2, h3, h4]
    · simp [h1]

theorem copyRowUp_apply (b : Buffer) (row : Nat) (hrow : 1 ≤ row) (r' c' : Nat) :
    copyRowUp b row r' c' =
      if r' = row - 1 ∧ c' < BUFFER_WIDTH then b row c' else b r' c' :=
  copyRowUp_fold_apply row hrow BUFFER_WIDTH b r' c'

theorem shift_fold_apply :
    ∀ (n : Nat) (b : Buffer) (r' c' : Nat),
      (List.range' 1 n).foldl copyRowUp b r' c' =
        if r' < n ∧ c' < BUFFER_WIDTH then b (r' + 1) c' else b r' c' := by
  intro n
  induction n with
  | zero => intro b r' c'; simp
  | succ n ih =>
    intro b r' c'
    have hconcat : List.range' 1 (n + 1) = List.range' 1 n ++ [1 + n] := by
      exact List.range'_1_concat 1 n
    rw [hconcat, List.foldl_append]
    simp only [List.foldl_cons, List.foldl_nil]
    rw [copyRowUp_apply _ (1 + n) (by omega)]
    have hsub : 1 + n - 1 = n := by omega
    rw [hsub]
    simp only [ih]
    by_cases hc : c' < BUFFER_WIDTH
    · simp only [eq_true hc, and_true]
      by_cases h1 : r' = n
      · rw [if_pos h1]
        have hx : ¬ 1 + n < n := by omega
        rw [if_neg hx]
        have hy : r' < n + 1 := by omega
        rw [if_pos hy]
        have hz : 1 + n = r' + 1 := by omega
        rw [hz]
      · rw [if_neg h1]
        by_cases h2 : r' < n
        · rw [if_pos h2, if_pos (Nat.lt_succ_of_lt h2)]
        · have h3 : ¬ r' < n + 1 := by omega
          rw [if_neg h2, if_neg h3]
    · simp only [eq_false hc, and_false, if_false]

/-- Effect of `new_line` on the buffer: rows 0 through 23 receive the old
contents of the row below, and the last row is blanked. -/
theorem new_line_buffer (w : Writer) (r' c' : Nat) :
    w.new_line.buffer r' c' =
      if r' = BUFFER_HEIGHT - 1 ∧ c' < BUFFER_WIDTH then ⟨0x20, w.color_code⟩
      else if r' < BUFFER_HEIGHT - 1 ∧ c' < BUFFER_WIDTH then w.buffer (r' + 1) c'
      else w.buffer r' c' := by
  have h1 : w.new_line.buffer r' c' =
      (({ w with
          buffer := (List.range' 1 (BUFFER_HEIGHT - 1)).foldl copyRowUp w.buffer } :
        Writer).clear_row (BUFFER_HEIGHT - 1)).buffer r' c' := rfl
  rw [h1, clear_row_buffer]
  simp only [shift_fold_apply]

theorem new_line_column_position (w : Writer) :
    w.new_line.column_position = 0 := rfl

theorem new_line_color_code (w : Writer) :
    w.new_line.color_code = w.color_code := rfl

/-! ### Characterization lemmas for `write_byte` and `write_string` -/

/-- A byte in the printable ASCII range 0x20 through 0x7e. -/
abbrev printable (b : Nat) : Prop := 0x20 ≤ b ∧ b ≤ 0x7e

theorem write_byte_no_wrap (w : Writer) (b : Nat) (hb : b ≠ 0x0a)
    (hcol : w.column_position < BUFFER_WIDTH) :
    w.write_byte b =
      { w with
        buffer := writeCell w.buffer (BUFFER_HEIGHT - 1) w.column_position
          ⟨b, w.color_code⟩
        column_position := w.column_position + 1 } := by
  have h80 : ¬ BUFFER_WIDTH ≤ w.column_position := by omega
  simp [Writer.write_byte, hb, h80]

theorem write_byte_column (w : Writer) (b : Nat) :
    (w.write_byte b).column_position =
      if b = 0x0a then 0
      else if BUFFER_WIDTH ≤ w.column_position then 1
      else w.column_position + 1 := by
  by_cases hb : b = 0x0a
  · simp [Writer.write_byte, hb, new_line_column_position]
  · by_cases h80 : BUFFER_WIDTH ≤ w.column_position
    · simp [Writer.write_byte, hb, h80, new_line_column_position]
    · simp [Writer.write_byte, hb, h80]

theorem write_byte_color_code (w : Writer) (b : Nat) :
    (w.write_byte b).color_code = w.color_code := by
  by_cases hb : b = 0x0a
  · simp [Writer.write_byte, hb, new_line_color_code]
  · by_cases h80 : BUFFER_WIDTH ≤ w.column_position
    · simp [Writer.write_byte, hb, h80, new_line_color_code]
    · simp [Writer.write_byte, hb, h80]

theorem write_byte_col_le (w : Writer) (b : Nat)
    (h : w.column_position ≤ BUFFER_WIDTH) :
    (w.write_byte b).column_position ≤ BUFFER_WIDTH := by
  have hbw : BUFFER_WIDTH = 80 := rfl
  rw [write_byte_column]
  by_cases hb : b = 0x0a
  · rw [if_pos hb]; omega
  · by_cases h80 : BUFFER_WIDTH ≤ w.column_position
    · rw [if_neg hb, if_pos h80]; omega
    · rw [if_neg hb, if_neg h80]; omega

theorem write_string_cons (w : Writer) (b : Nat) (rest : List Nat) :
    w.write_string (b :: rest) =
      ((if (0x20 ≤ b ∧ b ≤ 0x7e) ∨ b = 0x0a then w.write_byte b
        else w.write_byte 0xfe)).write_string rest := rfl

theorem write_string_col_le (s : List Nat) :
    ∀ w : Writer, w.column_position ≤ BUFFER_WIDTH →
      (w.write_string s).column_position ≤ BUFFER_WIDTH := by
  induction s with
  | nil => intro w h; exact h
  | cons b rest ih =>
    intro w h
    rw [write_string_cons]
    by_cases hb : (0x20 ≤ b ∧ b ≤ 0x7e) ∨ b = 0x0a
    · rw [if_pos hb]; exact ih _ (write_byte_col_le w b h)
    · rw [if_neg hb]; exact ih _ (write_byte_col_le w 0xfe h)

/-- The byte-substitution policy stated by the spec for `write_string`:
printable ASCII and newline pass through, everything else becomes 0xfe.
This definition follows the wording of the spec and is compared against
the source's `write_string` below. -/
def substitute_spec (b : Nat) : Nat :=
  if (0x20 ≤ b ∧ b ≤ 0x7e) ∨ b = 0x0a then b else 0xfe

theorem write_string_eq_foldl (s : List Nat) :
    ∀ w : Writer,
      w.write_string s = (s.map substitute_spec).foldl Writer.write_byte w := by
  induction s with
  | nil => intro w; rfl
  | cons b rest ih =>
    intro w
    rw [write_string_cons, List.map_cons, List.foldl_cons, ih]
    by_cases hb : (0x20 ≤ b ∧ b ≤ 0x7e) ∨ b = 0x0a
    · rw [if_pos hb]
      have : substitute_spec b = b := by rw [substitute_spec, if_pos hb]
      rw [this]
    · rw [if_neg hb]
      have : substitute_spec b = 0xfe := by rw [substitute_spec, if_neg hb]
      rw [this]

/-- Writing a run of printable bytes that fits in the current line appends
them to the bottom row, one column each, and touches nothing else. -/
theorem write_run (L : List Nat) :
    ∀ w : Writer,
      (∀ b ∈ L, printable b) →
      w.column_position + L.length ≤ BUFFER_WIDTH →
      (L.foldl Writer.write_byte w).column_position =
          w.column_position + L.length ∧
      (L.foldl Writer.write_byte w).color_code = w.color_code ∧
      (∀ r c, (L.foldl Writer.write_byte w).buffer r c =
        if r = BUFFER_HEIGHT - 1 ∧ w.column_position ≤ c ∧
            c < w.column_position + L.length
        then ⟨L.getD (c - w.column_position) 0, w.color_code⟩
        else w.buffer r c) := by
  induction L with
  | nil =>
    intro w _ _
    refine ⟨by simp, by simp, ?_⟩
    intro r c
    simp only [List.foldl_nil, List.length_nil, Nat.add_zero]
    have hfalse : ¬ (r = BUFFER_HEIGHT - 1 ∧ w.column_position ≤ c ∧
        c < w.column_position) := by omega
    rw [if_neg hfalse]
  | cons b rest ih =>
    intro w hall hlen
    have hb : printable b := hall b (List.mem_cons_self b rest)
    have hbn : b ≠ 0x0a := by
      have h1 : 0x20 ≤ b := hb.1
      omega
    have hrestlen : (b :: rest).length = rest.length + 1 := rfl
    have hcol : w.column_position < BUFFER_WIDTH := by
      rw [hrestlen] at hlen; omega
    have hw1 : w.write_byte b =
        { w with
          buffer := writeCell w.buffer (BUFFER_HEIGHT - 1) w.column_position
            ⟨b, w.color_code⟩
          column_position := w.column_position + 1 } :=
      write_byte_no_wrap w b hbn hcol
    rw [List.foldl_cons, hw1]
    obtain ⟨ih1, ih2, ih3⟩ := ih
      { w with
        buffer := writeCell w.buffer (BUFFER_HEIGHT - 1) w.column_position
          ⟨b, w.color_code⟩
        column_position := w.column_position + 1 }
      (fun x hx => hall x (List.mem_cons_of_mem b hx))
      (by rw [hrestlen] at hlen; simpa using by omega)
    refine ⟨?_, ?_, ?_⟩
    · rw [ih1]
      show w.column_position + 1 + rest.length = w.column_position + (b :: rest).length
      rw [hrestlen]; omega
    · rw [ih2]
    · intro r c
      rw [ih3 r c]
      simp only [writeCell_apply]
      by_cases hr : r = BUFFER_HEIGHT - 1
      · by_cases hc1 : c = w.column_position
        · have hno : ¬ (r = BUFFER_HEIGHT - 1 ∧ w.column_position + 1 ≤ c ∧
              c < w.column_position + 1 + rest.length) := by omega
          have hyes : r = BUFFER_HEIGHT - 1 ∧ w.column_position ≤ c ∧
              c < w.column_position + (b :: rest).length := by
            rw [hrestlen]; omega
          rw [if_neg hno, if_pos ⟨hr, hc1⟩, if_pos hyes]
          have hz : c - w.column_position = 0 := by omega
          rw [hz]
          rfl
        · by_cases hc2 : w.column_position + 1 ≤ c ∧
              c < w.column_position + 1 + rest.length
          · have hyes : r = BUFFER_HEIGHT - 1 ∧ w.column_position ≤ c ∧
                c < w.column_position + (b :: rest).length := by
              rw [hrestlen]; omega
            rw [if_pos ⟨hr, hc2.1, hc2.2⟩, if_pos hyes]
            have hz : c - w.column_position = (c - (w.column_position + 1)) + 1 := by
              omega
            rw [hz, List.getD_cons_succ]
          · have hno1 : ¬ (r = BUFFER_HEIGHT - 1 ∧ w.column_position + 1 ≤ c ∧
                c < w.column_position + 1 + rest.length) := by tauto
            have hno2 : ¬ (r = BUFFER_HEIGHT - 1 ∧ c = w.column_position) := by
              tauto
            have hno3 : ¬ (r = BUFFER_HEIGHT - 1 ∧ w.column_position ≤ c ∧
                c < w.column_position + (b :: rest).length) := by
              rw [hrestlen]; omega
            rw [if_neg hno1, if_neg hno2, if_neg hno3]
      · have hno1 : ¬ (r = BUFFER_HEIGHT - 1 ∧ w.column_position + 1 ≤ c ∧
            c < w.column_position + 1 + rest.length) := by tauto
        have hno2 : ¬ (r = BUFFER_HEIGHT - 1 ∧ c = w.column_position) := by tauto
        have hno3 : ¬ (r = BUFFER_HEIGHT - 1 ∧ w.column_position ≤ c ∧
            c < w.column_position + (b :: rest).length) := by tauto
        rw [if_neg hno1, if_neg hno2, if_neg hno3]

theorem write_byte_wrap (w : Writer) (b : Nat) (hb : b ≠ 0x0a)
    (hcol : BUFFER_WIDTH ≤ w.column_position) :
    w.write_byte b =
      { w.new_line with
        buffer := writeCell w.new_line.buffer (BUFFER_HEIGHT - 1) 0
          ⟨b, w.color_code⟩
        column_position := 1 } := by
  simp only [Writer.write_byte, if_neg hb, if_pos hcol, new_line_column_position,
    new_line_color_code]

/-! ### The claims -/

/-- Claim C4: `ColorCode::new` packs the background's numeric code into
bits 4 through 7 and the foreground's code into bits 0 through 3 of one
byte, with the 16 colors carrying codes 0 through 15 in the fixed palette
order; the high nibble decodes to the background code and the low nibble
to the foreground code. -/
theorem claim_C4_color_code_packing :
    (∀ fg bg : Color,
      ColorCode.new fg bg >>> 4 = bg.code ∧
      ColorCode.new fg bg &&& 0xf = fg.code ∧
      ColorCode.new fg bg / 16 = bg.code ∧
      ColorCode.new fg bg % 16 = fg.code ∧
      ColorCode.new fg bg < 256) ∧
    Color.Black.code = 0 ∧ Color.Blue.code = 1 ∧ Color.Green.code = 2 ∧
    Color.Cyan.code = 3 ∧ Color.Red.code = 4 ∧ Color.Magenta.code = 5 ∧
    Color.Brown.code = 6 ∧ Color.LightGray.code = 7 ∧
    Color.DarkGray.code = 8 ∧ Color.LightBlue.code = 9 ∧
    Color.LightGreen.code = 10 ∧ Color.LightCyan.code = 11 ∧
    Color.LightRed.code = 12 ∧ Color.Pink.code = 13 ∧
    Color.Yellow.code = 14 ∧ Color.White.code = 15 := by
  constructor
  · decide
  · decide

/-- Claim C9: no writer operation is fallible: `write_str` performs the
write and always returns `Ok(())`, so the print entry point's `unwrap`
never fails and the entry point reduces to the plain string write. -/
theorem claim_C9_write_str_infallible (w : Writer) (s : List Nat) :
    (w.write_str s).2 = Except.ok () ∧
    unwrap (w.write_str s).2 = some () ∧
    (w.write_str s).1 = w.write_string s ∧
    print_entry w s = w.write_string s :=
  ⟨rfl, rfl, rfl, rfl⟩

/-- Claim C3: `new_line` copies every cell of rows 1 through 24 one row
up (discarding row 0's prior content), blanks the last row with spaces in
the current color, and resets the column position to 0. -/
theorem claim_C3_new_line (w : Writer) :
    (∀ row col, 1 ≤ row → row ≤ BUFFER_HEIGHT - 1 → col < BUFFER_WIDTH →
      w.new_line.buffer (row - 1) col = w.buffer row col) ∧
    (∀ col, col < BUFFER_WIDTH →
      w.new_line.buffer (BUFFER_HEIGHT - 1) col = ⟨0x20, w.color_code⟩) ∧
    w.new_line.column_position = 0 := by
  refine ⟨?_, ?_, new_line_column_position w⟩
  · intro row col h1 h2 h3
    rw [new_line_buffer]
    have hbh : BUFFER_HEIGHT = 25 := rfl
    have hno : ¬ (row - 1 = BUFFER_HEIGHT - 1 ∧ col < BUFFER_WIDTH) := by omega
    have hyes : row - 1 < BUFFER_HEIGHT - 1 ∧ col < BUFFER_WIDTH := by omega
    rw [if_neg hno, if_pos hyes]
    have h4 : row - 1 + 1 = row := by omega
    rw [h4]
  · intro col h3
    rw [new_line_buffer, if_pos ⟨rfl, h3⟩]

/-- A device memory with distinct, non-blank contents, used to witness
the scroll and initialization claims on a concrete buffer. -/
def demo_device : Buffer := fun r c => ⟨r + c, 7⟩

/-- Witness for C3 at a concrete writer: the cell at (1, 5) of the demo
device moves to (0, 5), the bottom row is blanked, the column resets. -/
theorem claim_C3_new_line_witness :
    (WRITER demo_device).new_line.buffer 0 5 = demo_device 1 5 ∧
    (WRITER demo_device).new_line.buffer (BUFFER_HEIGHT - 1) 5 =
      ⟨0x20, (WRITER demo_device).color_code⟩ ∧
    (WRITER demo_device).new_line.column_position = 0 :=
  ⟨(claim_C3_new_line (WRITER demo_device)).1 1 5 (by decide) (by decide)
      (by decide),
    (claim_C3_new_line (WRITER demo_device)).2.1 5 (by decide),
    (claim_C3_new_line (WRITER demo_device)).2.2⟩

/-- Claim C8 (amended): `clear_row` overwrites every cell of the given
row with a space in the current color, leaves every other row, the column
position and the color unchanged, and is invoked by `new_line`; writer
initialization, however, performs no clearing — the singleton binds to
the device memory's pre-existing contents unchanged. -/
theorem claim_C8_clear_row (w : Writer) (row : Nat) :
    (∀ c, c < BUFFER_WIDTH →
      (w.clear_row row).buffer row c = ⟨0x20, w.color_code⟩) ∧
    (∀ r c, r ≠ row → (w.clear_row row).buffer r c = w.buffer r c) ∧
    (w.clear_row row).column_position = w.column_position ∧
    (w.clear_row row).color_code = w.color_code ∧
    w.new_line =
      { ({ w with
            buffer :=
              (List.range' 1 (BUFFER_HEIGHT - 1)).foldl copyRowUp w.buffer } :
          Writer).clear_row (BUFFER_HEIGHT - 1) with
        column_position := 0 } ∧
    (∀ device : Buffer, ∀ r c, (WRITER device).buffer r c = device r c) := by
  refine ⟨?_, ?_, rfl, rfl, rfl, fun _ _ _ => rfl⟩
  · intro c hc
    rw [clear_row_buffer, if_pos ⟨rfl, hc⟩]
  · intro r c hr
    rw [clear_row_buffer, if_neg (fun hx => hr hx.1)]

/-- Witness for C8 at a concrete writer and row. -/
theorem claim_C8_clear_row_witness :
    ((WRITER demo_device).clear_row 3).buffer 3 5 =
      ⟨0x20, (WRITER demo_device).color_code⟩ ∧
    ((WRITER demo_device).clear_row 3).buffer 0 5 =
      (WRITER demo_device).buffer 0 5 ∧
    ((WRITER demo_device).clear_row 3).column_position =
      (WRITER demo_device).column_position :=
  ⟨(claim_C8_clear_row (WRITER demo_device) 3).1 5 (by decide),
    (claim_C8_clear_row (WRITER demo_device) 3).2.1 0 5 (by decide),
    (claim_C8_clear_row (WRITER demo_device) 3).2.2.1⟩

/-- A device memory holding non-blank cells everywhere, exhibiting that
writer initialization clears nothing. -/
def dirty_device : Buffer := fun _ _ => ⟨0x41, 0⟩

/-- Counterexample to C8 as stated: after constructing the writer
singleton over a device whose cells all hold the character 0x41, the
bottom row still holds 0x41 — no row was blanked during initialization,
so clear_row is not performed as part of initialization. -/
theorem claim_C8_counterexample :
    (WRITER dirty_device).buffer (BUFFER_HEIGHT - 1) 0 = ⟨0x41, 0⟩ ∧
    (WRITER dirty_device).buffer (BUFFER_HEIGHT - 1) 0 ≠
      ⟨0x20, (WRITER dirty_device).color_code⟩ := by
  constructor
  · rfl
  · decide

/-- Claim C1: `write_byte` sends the newline byte to `new_line` and
writes no cell for it; for any other byte it first invokes `new_line`
when the column position has reached the grid width, then writes a cell
holding the byte and the current color at (last row, column position) and
increments the column position; in particular every printable byte lands
in a cell whose character byte equals the input byte. -/
theorem claim_C1_write_byte (w : Writer) (b : Nat) :
    (b = 0x0a → w.write_byte b = w.new_line) ∧
    (b ≠ 0x0a →
      w.write_byte b =
        { column_position :=
            (if BUFFER_WIDTH ≤ w.column_position then w.new_line
              else w).column_position + 1
          color_code := w.color_code
          buffer :=
            writeCell
              (if BUFFER_WIDTH ≤ w.column_position then w.new_line else w).buffer
              (BUFFER_HEIGHT - 1)
              (if BUFFER_WIDTH ≤ w.column_position then w.new_line
                else w).column_position
              ⟨b, w.color_code⟩ }) ∧
    (0x20 ≤ b → b ≤ 0x7e →
      (w.write_byte b).buffer (BUFFER_HEIGHT - 1)
          (if BUFFER_WIDTH ≤ w.column_position then 0 else w.column_position) =
        ⟨b, w.color_code⟩) := by
  refine ⟨?_, ?_, ?_⟩
  · intro hb
    simp [Writer.write_byte, hb]
  · intro hb
    by_cases h80 : BUFFER_WIDTH ≤ w.column_position
    · simp only [Writer.write_byte, if_neg hb, if_pos h80, new_line_color_code]
    · simp only [Writer.write_byte, if_neg hb, if_neg h80]
  · intro h1 h2
    have hb : b ≠ 0x0a := by omega
    by_cases h80 : BUFFER_WIDTH ≤ w.column_position
    · rw [write_byte_wrap w b hb h80, if_pos h80]
      simp [writeCell_apply]
    · have hcol : w.column_position < BUFFER_WIDTH := by omega
      rw [write_byte_no_wrap w b hb hcol, if_neg h80]
      simp [writeCell_apply]

/-- Witness for C1: writing the newline and a printable byte at a
concrete writer. -/
theorem claim_C1_write_byte_witness :
    (WRITER demo_device).write_byte 0x0a = (WRITER demo_device).new_line ∧
    ((WRITER demo_device).write_byte 0x48).buffer (BUFFER_HEIGHT - 1) 0 =
      ⟨0x48, (WRITER demo_device).color_code⟩ :=
  ⟨(claim_C1_write_byte (WRITER demo_device) 0x0a).1 rfl, by
    have h := (claim_C1_write_byte (WRITER demo_device) 0x48).2.2
      (by decide) (by decide)
    simpa using h⟩

/-- Claim C2: `write_string` processes its input byte by byte, passing
newline and printable bytes to `write_byte` unchanged and substituting
the placeholder 0xfe for every other byte; consequently a non-printable,
non-newline byte produces a cell holding 0xfe. -/
theorem claim_C2_write_string (w : Writer) (s : List Nat) :
    w.write_string s = (s.map substitute_spec).foldl Writer.write_byte w ∧
    (∀ b : Nat, (printable b ∨ b = 0x0a) → substitute_spec b = b) ∧
    (∀ b : Nat, ¬ printable b → b ≠ 0x0a → substitute_spec b = 0xfe) ∧
    (∀ b : Nat, ¬ printable b → b ≠ 0x0a →
      w.column_position < BUFFER_WIDTH →
      (w.write_string [b]).buffer (BUFFER_HEIGHT - 1) w.column_position =
        ⟨0xfe, w.color_code⟩) := by
  refine ⟨write_string_eq_foldl s w, ?_, ?_, ?_⟩
  · intro b hb
    rw [substitute_spec, if_pos hb]
  · intro b hb1 hb2
    rw [substitute_spec, if_neg (by tauto)]
  · intro b hb1 hb2 hcol
    have hcond : ¬ ((0x20 ≤ b ∧ b ≤ 0x7e) ∨ b = 0x0a) := by tauto
    rw [write_string_cons, if_neg hcond]
    have hnil : ∀ w' : Writer, w'.write_string [] = w' := fun _ => rfl
    rw [hnil, write_byte_no_wrap w 0xfe (by omega) hcol]
    simp [writeCell_apply]

/-- Witness for C2: the byte 0x01 (neither printable nor newline) renders
as 0xfe at a concrete writer. -/
theorem claim_C2_write_string_witness :
    substitute_spec 0x41 = 0x41 ∧ substitute_spec 0x01 = 0xfe ∧
    ((WRITER demo_device).write_string [0x01]).buffer (BUFFER_HEIGHT - 1) 0 =
      ⟨0xfe, (WRITER demo_device).color_code⟩ :=
  ⟨(claim_C2_write_string (WRITER demo_device) []).2.1 0x41 (by decide),
    (claim_C2_write_string (WRITER demo_device) []).2.2.1 0x01 (by decide)
      (by decide),
    (claim_C2_write_string (WRITER demo_device) []).2.2.2 0x01 (by decide)
      (by decide) (by decide)⟩

theorem map_substitute_of_printable (L : List Nat) (h : ∀ b ∈ L, printable b) :
    L.map substitute_spec = L := by
  induction L with
  | nil => rfl
  | cons b rest ih =>
    rw [List.map_cons, ih (fun x hx => h x (List.mem_cons_of_mem b hx))]
    have hb : printable b := h b (List.mem_cons_self b rest)
    have hsub : substitute_spec b = b := by rw [substitute_spec, if_pos (Or.inl hb)]
    rw [hsub]

/-- Claim C5: from column 0, writing a full line of 80 printable bytes and
then one more printable byte places the 81st byte at column 0 of the
bottom row, with the previously written bottom row shifted up to row 23. -/
theorem claim_C5_wrap (w : Writer) (L : List Nat) (b : Nat)
    (hcol : w.column_position = 0)
    (hlen : L.length = BUFFER_WIDTH)
    (hall : ∀ x ∈ L, printable x)
    (hb : printable b) :
    ((w.write_string L).write_byte b).buffer (BUFFER_HEIGHT - 1) 0 =
        ⟨b, w.color_code⟩ ∧
    ((w.write_string L).write_byte b).column_position = 1 ∧
    (∀ c, c < BUFFER_WIDTH →
      ((w.write_string L).write_byte b).buffer (BUFFER_HEIGHT - 2) c =
        (w.write_string L).buffer (BUFFER_HEIGHT - 1) c) ∧
    (∀ c, c < BUFFER_WIDTH →
      ((w.write_string L).write_byte b).buffer (BUFFER_HEIGHT - 2) c =
        ⟨L.getD c 0, w.color_code⟩) := by
  have hb10 : b ≠ 0x0a := by
    have h1 : 0x20 ≤ b := hb.1
    omega
  have hws : w.write_string L = L.foldl Writer.write_byte w := by
    rw [write_string_eq_foldl, map_substitute_of_printable L hall]
  obtain ⟨h1, h2, h3⟩ := write_run L w hall (by omega)
  have hcol80 : BUFFER_WIDTH ≤ (w.write_string L).column_position := by
    rw [hws, h1, hcol, hlen]; omega
  have hwb := write_byte_wrap (w.write_string L) b hb10 hcol80
  have hcolor : (w.write_string L).color_code = w.color_code := by rw [hws, h2]
  have hbh : BUFFER_HEIGHT = 25 := rfl
  have hshift : ∀ c, c < BUFFER_WIDTH →
      ((w.write_string L).write_byte b).buffer (BUFFER_HEIGHT - 2) c =
        (w.write_string L).buffer (BUFFER_HEIGHT - 1) c := by
    intro c hc
    rw [hwb]
    simp only [writeCell_apply]
    have hne : ¬ (BUFFER_HEIGHT - 2 = BUFFER_HEIGHT - 1 ∧ c = 0) := by omega
    rw [if_neg hne, new_line_buffer]
    have hno1 : ¬ (BUFFER_HEIGHT - 2 = BUFFER_HEIGHT - 1 ∧ c < BUFFER_WIDTH) := by
      omega
    have hyes : BUFFER_HEIGHT - 2 < BUFFER_HEIGHT - 1 ∧ c < BUFFER_WIDTH :=
      ⟨by omega, hc⟩
    rw [if_neg hno1, if_pos hyes]
    have h4 : BUFFER_HEIGHT - 2 + 1 = BUFFER_HEIGHT - 1 := by omega
    rw [h4]
  have hrow : ∀ c, c < BUFFER_WIDTH →
      (w.write_string L).buffer (BUFFER_HEIGHT - 1) c =
        ⟨L.getD c 0, w.color_code⟩ := by
    intro c hc
    rw [hws, h3]
    have hyes : BUFFER_HEIGHT - 1 = BUFFER_HEIGHT - 1 ∧ w.column_position ≤ c ∧
        c < w.column_position + L.length := ⟨rfl, by omega, by omega⟩
    rw [if_pos hyes]
    have h5 : c - w.column_position = c := by omega
    rw [h5]
  refine ⟨?_, ?_, hshift, fun c hc => by rw [hshift c hc, hrow c hc]⟩
  · rw [hwb]
    simp [writeCell_apply, hcolor]
  · rw [hwb]

/-- Witness for C5: a concrete full line of the letter X followed by one
letter Y wraps the Y to column 0 of the bottom row. -/
theorem claim_C5_wrap_witness :
    (((WRITER demo_device).write_string
        (List.replicate 80 0x58)).write_byte 0x59).buffer
        (BUFFER_HEIGHT - 1) 0 = ⟨0x59, (WRITER demo_device).color_code⟩ ∧
    (((WRITER demo_device).write_string
        (List.replicate 80 0x58)).write_byte 0x59).buffer
        (BUFFER_HEIGHT - 2) 5 =
      ⟨(List.replicate 80 0x58).getD 5 0, (WRITER demo_device).color_code⟩ :=
  ⟨(claim_C5_wrap (WRITER demo_device) (List.replicate 80 0x58) 0x59 rfl
      (by decide) (by decide) (by decide)).1,
    (claim_C5_wrap (WRITER demo_device) (List.replicate 80 0x58) 0x59 rfl
      (by decide) (by decide) (by decide)).2.2.2 5 (by decide)⟩

/-- The writer states reachable from a state with column position 0 by
any sequence of `write_byte`, `write_string` and `new_line` calls. -/
inductive Reach : Writer → Prop where
  | base : ∀ w : Writer, w.column_position = 0 → Reach w
  | step_byte : ∀ (w : Writer) (b : Nat), Reach w → Reach (w.write_byte b)
  | step_string : ∀ (w : Writer) (s : List Nat), Reach w → Reach (w.write_string s)
  | step_new_line : ∀ w : Writer, Reach w → Reach w.new_line

/-- Claim C6: starting from column position 0, every reachable writer
state keeps the column position at most the grid width 80, and every cell
write issued by `write_byte` targets the last row at a column strictly
below 80. -/
theorem claim_C6_invariant :
    (∀ w : Writer, Reach w → w.column_position ≤ BUFFER_WIDTH) ∧
    (∀ (w : Writer) (b : Nat), b ≠ 0x0a →
      ∃ c, c < BUFFER_WIDTH ∧
        (w.write_byte b).buffer =
          writeCell
            (if BUFFER_WIDTH ≤ w.column_position then w.new_line else w).buffer
            (BUFFER_HEIGHT - 1) c ⟨b, w.color_code⟩) := by
  constructor
  · intro w hw
    induction hw with
    | base w h => rw [h]; exact Nat.zero_le _
    | step_byte w b hw ih => exact write_byte_col_le w b ih
    | step_string w s hw ih => exact write_string_col_le s w ih
    | step_new_line w hw ih =>
      rw [new_line_column_position]; exact Nat.zero_le _
  · intro w b hb
    have hbw : BUFFER_WIDTH = 80 := rfl
    by_cases h80 : BUFFER_WIDTH ≤ w.column_position
    · refine ⟨0, by omega, ?_⟩
      rw [write_byte_wrap w b hb h80, if_pos h80]
    · refine ⟨w.column_position, by omega, ?_⟩
      rw [write_byte_no_wrap w b hb (by omega), if_neg h80]

/-- Witness for C6 at a concrete reachable writer. -/
theorem claim_C6_invariant_witness :
    ((WRITER demo_device).write_byte 0x48).column_position ≤ BUFFER_WIDTH ∧
    (∃ c, c < BUFFER_WIDTH ∧
      ((WRITER demo_device).write_byte 0x48).buffer =
        writeCell
          (if BUFFER_WIDTH ≤ (WRITER demo_device).column_position then
            (WRITER demo_device).new_line
          else WRITER demo_device).buffer
          (BUFFER_HEIGHT - 1) c ⟨0x48, (WRITER demo_device).color_code⟩) :=
  ⟨claim_C6_invariant.1 _
      (Reach.step_byte (WRITER demo_device) 0x48
        (Reach.base (WRITER demo_device) rfl)),
    claim_C6_invariant.2 (WRITER demo_device) 0x48 (by decide)⟩

/-- A freshly initialized blank grid: every cell a space in the writer's
initial yellow-on-black color. -/
def blank_device : Buffer :=
  fun _ _ => ⟨0x20, ColorCode.new Color.Yellow Color.Black⟩

/-- The bytes of the string literal Hello. -/
def hello_bytes : List Nat := [0x48, 0x65, 0x6c, 0x6c, 0x6f]

/-- The bytes of the string literal starting with a space: space, W, o,
r, l, d, exclamation mark. -/
def world_bytes : List Nat := [0x20, 0x57, 0x6f, 0x72, 0x6c, 0x64, 0x21]

/-- The bytes of Hello World with the exclamation mark. -/
def hello_world_bytes : List Nat := hello_bytes ++ world_bytes

/-- The writer after the two writes of the end-to-end scenario. -/
def c7_final : Writer :=
  ((WRITER blank_device).write_string hello_bytes).write_string world_bytes

/-- Claim C7: writing Hello then space-World-bang to a freshly
initialized writer over a blank grid leaves columns 0 through 11 of the
bottom row spelling the concatenated text, every remaining column of that
row at its initial blank state, and the column position at 12. -/
theorem claim_C7_hello_world :
    (∀ c, c < 12 →
      c7_final.buffer (BUFFER_HEIGHT - 1) c =
        ⟨hello_world_bytes.getD c 0, (WRITER blank_device).color_code⟩) ∧
    (∀ c, c < BUFFER_WIDTH → 12 ≤ c →
      c7_final.buffer (BUFFER_HEIGHT - 1) c =
        blank_device (BUFFER_HEIGHT - 1) c) ∧
    c7_final.column_position = 12 := by
  refine ⟨?_, ?_, rfl⟩
  · decide
  · decide

/-- Witness for C7 at concrete columns 0 and 12. -/
theorem claim_C7_hello_world_witness :
    c7_final.buffer (BUFFER_HEIGHT - 1) 0 =
      ⟨hello_world_bytes.getD 0 0, (WRITER blank_device).color_code⟩ ∧
    c7_final.buffer (BUFFER_HEIGHT - 1) 12 =
      blank_device (BUFFER_HEIGHT - 1) 12 ∧
    c7_final.column_position = 12 :=
  ⟨claim_C7_hello_world.1 0 (by decide),
    claim_C7_hello_world.2.1 12 (by decide) (by decide),
    claim_C7_hello_world.2.2⟩

end VgaBuffer
